import Mathlib

/-!
# Verification of the efrate core components

A shallow embedding of the repository's core runtime components
(`src/utils/token-bucket.ts`, `src/rate-limiter.ts`, `src/utils/similarity.ts`,
`src/cache.ts`, `src/batcher.ts`) together with proofs of the specified
properties.  JavaScript numbers are modelled as rationals (`ℚ`), strings as
lists of characters, and the JavaScript `Map` as an insertion-ordered
association list.  Stateful methods become pure functions from the receiver
state (plus the current wall-clock time, standing for `Date.now()`) to the
result and the updated state.
-/

/-! ## TokenBucket (src/utils/token-bucket.ts) -/

/-- State of a `TokenBucket`: `tokens` (current level), `maxTokens`
(capacity), `refillRate` (tokens per ms), `lastRefill` (timestamp of the
last refill). -/
structure TokenBucket where
  tokens : ℚ
  maxTokens : ℚ
  refillRate : ℚ
  lastRefill : ℚ
  deriving DecidableEq, Repr

/-- `new TokenBucket(maxTokens, refillTimeMs)` at time `now`. -/
def TokenBucket.init (maxTokens refillTimeMs now : ℚ) : TokenBucket :=
  { tokens := maxTokens
    maxTokens := maxTokens
    refillRate := maxTokens / refillTimeMs
    lastRefill := now }

/-- `TokenBucket.refill()`: add `elapsed * refillRate` tokens, clamped to
`maxTokens`, when time has elapsed since the last refill. -/
def TokenBucket.refill (s : TokenBucket) (now : ℚ) : TokenBucket :=
  let elapsedMs := now - s.lastRefill
  if 0 < elapsedMs then
    { s with
      tokens := min s.maxTokens (s.tokens + elapsedMs * s.refillRate)
      lastRefill := now }
  else s

/-- `TokenBucket.takeTokens(count)`: refill, then subtract `count` when the
level suffices, returning whether the take succeeded together with the
updated bucket. -/
def TokenBucket.takeTokens (s : TokenBucket) (now count : ℚ) : Bool × TokenBucket :=
  let s1 := s.refill now
  if count ≤ s1.tokens then (true, { s1 with tokens := s1.tokens - count })
  else (false, s1)

/-- `TokenBucket.getTokens()`: refill, then report the current level. -/
def TokenBucket.getTokens (s : TokenBucket) (now : ℚ) : ℚ × TokenBucket :=
  let s1 := s.refill now
  (s1.tokens, s1)

/-- `TokenBucket.getWaitTimeMs(count)`: refill, then return the (ceiled)
time until `count` tokens are available. -/
def TokenBucket.getWaitTimeMs (s : TokenBucket) (now count : ℚ) : ℚ × TokenBucket :=
  let s1 := s.refill now
  let additionalTokensNeeded := max 0 (count - s1.tokens)
  if additionalTokensNeeded = 0 then (0, s1)
  else ((⌈additionalTokensNeeded / s1.refillRate⌉ : ℤ), s1)

/-- Well-formedness of a bucket built from a positive capacity and a
positive refill window: the derived rate is `capacity / window` and the
level lies in `[0, capacity]`. -/
def TokenBucket.WF (s : TokenBucket) (capacity window : ℚ) : Prop :=
  0 < capacity ∧ 0 < window ∧ s.maxTokens = capacity ∧
    s.refillRate = capacity / window ∧ 0 ≤ s.tokens ∧ s.tokens ≤ capacity

/-! ## RateLimiter (src/rate-limiter.ts) -/

/-- Constructor options for `RateLimiter` (`undefined` is `none`). -/
structure RateLimiterOptions where
  tokensPerInterval : ℚ
  intervalInMs : ℚ
  maxWaitTimeMs : Option ℚ
  autoWait : Option Bool
  deriving DecidableEq, Repr

/-- The configuration part of a `RateLimiter` (its fields besides the
bucket). -/
structure RateLimiterConfig where
  maxWaitTimeMs : ℚ
  autoWait : Bool
  deriving DecidableEq, Repr

/-- JavaScript `x || d` for an optional number `x`: `0` (falsy) and
`undefined` both select the default. -/
def jsNumOr (x : Option ℚ) (d : ℚ) : ℚ :=
  match x with
  | some v => if v = 0 then d else v
  | none => d

/-- The `RateLimiter` constructor: `maxWaitTimeMs = options.maxWaitTimeMs || 60000`,
`autoWait = options.autoWait !== undefined ? options.autoWait : true`,
bucket `new TokenBucket(tokensPerInterval, intervalInMs)`. -/
def RateLimiter.init (o : RateLimiterOptions) (now : ℚ) :
    RateLimiterConfig × TokenBucket :=
  ({ maxWaitTimeMs := jsNumOr o.maxWaitTimeMs 60000
     autoWait := o.autoWait.getD true },
   TokenBucket.init o.tokensPerInterval o.intervalInMs now)

/-- `RateLimiter.acquireToken(weight)`.  `now1` is the time of the immediate
attempt (the wait-time computation happens in the same tick); `now2` is the
time after the `setTimeout` suspension at which the single retry runs.
Returns whether a token was acquired together with the final bucket state. -/
def RateLimiter.acquireToken (cfg : RateLimiterConfig) (s : TokenBucket)
    (now1 now2 weight : ℚ) : Bool × TokenBucket :=
  let first := s.takeTokens now1 weight
  if first.1 then first
  else if ¬cfg.autoWait then (false, first.2)
  else
    let wt := first.2.getWaitTimeMs now1 weight
    if cfg.maxWaitTimeMs < wt.1 then (false, wt.2)
    else wt.2.takeTokens now2 weight

/-! ## SimilarityScorer (src/utils/similarity.ts) -/

/-- One inner-loop pass of the `levenshteinDistance` dynamic program: given
the comparison character `bc = b[i-1]` of the current row, the remaining
characters of `a`, the cell to the left (`matrix[i][j-1]`) and the previous
row from the diagonal position on (`matrix[i-1][j-1], matrix[i-1][j], ...`),
produce the cells `matrix[i][j], matrix[i][j+1], ...`. -/
def levRowRest (bc : Char) : List Char → ℕ → List ℕ → List ℕ
  | [], _, _ => []
  | _ :: _, _, [] => []
  | _ :: _, _, [_] => []
  | ac :: as, left, diag :: up :: rest =>
    let cost := if ac = bc then 0 else 1
    let cell := min (min (up + 1) (left + 1)) (diag + cost)
    cell :: levRowRest bc as cell (up :: rest)

/-- One outer-loop pass: from row `i-1` of the matrix build row `i`
(for comparison character `bc = b[i-1]`).  Its first cell is
`matrix[i][0] = i = matrix[i-1][0] + 1`. -/
def levNextRow (a : List Char) (bc : Char) (prev : List ℕ) : List ℕ :=
  let first := prev.headD 0 + 1
  first :: levRowRest bc a first prev

/-- All outer-loop passes: fold the rows over the characters of `b`,
starting from row `0 = [0, 1, ..., |a|]`. -/
def levRows (a : List Char) : List Char → List ℕ → List ℕ
  | [], prev => prev
  | bc :: bs, prev => levRows a bs (levNextRow a bc prev)

/-- `levenshteinDistance(a, b)`: the dynamic program of the source, returning
`matrix[b.length][a.length]` (cell `a.length` of the final row). -/
def levenshteinDistance (a b : List Char) : ℕ :=
  (levRows a b (List.range (a.length + 1))).getD a.length 0

/-- `calculateSimilarity(a, b)`: `1.0` on equal strings, `0.0` when either
is empty (falsy) while the other is not, else `1 - distance / maxLength`. -/
def calculateSimilarity (a b : List Char) : ℚ :=
  if a = b then 1
  else if a = [] ∨ b = [] then 0
  else
    let distance := levenshteinDistance a b
    let maxLength := max a.length b.length
    if maxLength = 0 then 1
    else 1 - (distance : ℚ) / (maxLength : ℚ)

/-- The specification's reference definition of `similarity(a, b)`:
`1.0` if `a == b` (hence `1.0` when both are empty); `0.0` if exactly one of
the strings is empty; otherwise `1 − editDistance(a,b) / max(|a|,|b|)`. -/
def similaritySpecRef (a b : List Char) : ℚ :=
  if a = b then 1
  else if (a = [] ∧ b ≠ []) ∨ (b = [] ∧ a ≠ []) then 0
  else 1 - (levenshteinDistance a b : ℚ) / (max a.length b.length : ℚ)

/-- Whitespace class used by `trim()` and the `\s` regex class: JavaScript
matches tab, LF, VT (11), FF (12), CR, space, NBSP (0xA0), the Ogham space
mark (0x1680), the Unicode space separators 0x2000–0x200A, the line and
paragraph separators (0x2028, 0x2029), narrow no-break space (0x202F),
medium mathematical space (0x205F), ideographic space (0x3000) and the BOM
(0xFEFF). -/
def isWS (c : Char) : Bool :=
  c = ' ' ∨ c = '\t' ∨ c = '\n' ∨ c = '\r' ∨ c.toNat = 11 ∨ c.toNat = 12 ∨
    c.toNat = 0xA0 ∨ c.toNat = 0x1680 ∨ (0x2000 ≤ c.toNat ∧ c.toNat ≤ 0x200A) ∨
    c.toNat = 0x2028 ∨ c.toNat = 0x2029 ∨ c.toNat = 0x202F ∨ c.toNat = 0x205F ∨
    c.toNat = 0x3000 ∨ c.toNat = 0xFEFF

/-- `String.prototype.trim()`: drop surrounding whitespace. -/
def jsTrim (s : List Char) : List Char :=
  ((s.dropWhile isWS).reverse.dropWhile isWS).reverse

/-- `String.prototype.toLowerCase()` (character-wise).  JavaScript applies
the Unicode lowercase mapping; `Char.toLower` is its restriction to ASCII,
with which it agrees on every ASCII character.  Non-ASCII case mapping is
outside this model (every concrete string in this development is ASCII),
so this definition is the identity on non-ASCII characters. -/
def jsToLower (s : List Char) : List Char :=
  s.map Char.toLower

/-- `replace(/\s+/g, ' ')`: collapse each maximal whitespace run to a single
space. -/
def collapseWS : List Char → List Char
  | [] => []
  | [c] => if isWS c then [' '] else [c]
  | c1 :: c2 :: cs =>
    if isWS c1 && isWS c2 then collapseWS (c2 :: cs)
    else (if isWS c1 then ' ' else c1) :: collapseWS (c2 :: cs)

/-- `normalizePrompt(prompt)`: trim, lowercase, collapse whitespace runs. -/
def normalizePrompt (prompt : List Char) : List Char :=
  collapseWS (jsToLower (jsTrim prompt))

/-! ## AICache (src/cache.ts) -/

/-- A cache entry: response, creation timestamp, and the (normalized)
prompt. -/
structure CacheEntry (T : Type) where
  response : T
  timestamp : ℚ
  prompt : List Char
  deriving DecidableEq, Repr

/-- Constructor options for `AICache` (`undefined` is `none`). -/
structure CacheOptions where
  maxSize : Option ℚ
  ttlMs : Option ℚ
  similarityThreshold : Option ℚ
  enableFuzzyMatching : Option Bool
  deriving DecidableEq, Repr

/-- The configuration part of an `AICache`. -/
structure CacheConfig where
  maxSize : ℚ
  ttlMs : ℚ
  similarityThreshold : ℚ
  enableFuzzyMatching : Bool
  deriving DecidableEq, Repr

/-- The `AICache` constructor: each numeric option defaults through the
JavaScript `||` operator (`maxSize || 1000`, `ttlMs || 3600000`,
`similarityThreshold || 0.95`), while `enableFuzzyMatching` defaults via an
`!== undefined` test. -/
def AICache.initConfig (o : CacheOptions) : CacheConfig :=
  { maxSize := jsNumOr o.maxSize 1000
    ttlMs := jsNumOr o.ttlMs 3600000
    similarityThreshold := jsNumOr o.similarityThreshold (95 / 100)
    enableFuzzyMatching := o.enableFuzzyMatching.getD true }

/-- The backing `Map` of the cache: an insertion-ordered association list
with (by construction) unique keys. -/
abbrev CacheMap (T : Type) : Type := List (List Char × CacheEntry T)

/-- `Map.get(k)` / `Map.has(k)`: the entry stored under key `k`, if any. -/
def mapFind {T : Type} (m : CacheMap T) (k : List Char) : Option (CacheEntry T) :=
  (m.find? (fun kv => kv.1 = k)).map (fun kv => kv.2)

/-- `Map.set(k, v)`: overwrite in place when `k` is present, else append. -/
def mapSet {T : Type} (m : CacheMap T) (k : List Char) (v : CacheEntry T) : CacheMap T :=
  if (m.find? (fun kv => kv.1 = k)).isSome then
    m.map (fun kv => if kv.1 = k then (k, v) else kv)
  else m ++ [(k, v)]

/-- `Map.delete(k)`: remove the entry stored under `k`. -/
def mapDelete {T : Type} (m : CacheMap T) (k : List Char) : CacheMap T :=
  m.eraseP (fun kv => kv.1 = k)

/-- The oldest-entry scan of `AICache.set`: fold over the entries keeping
the key with the strictly smallest timestamp seen so far (`none` plays the
role of the initial `Infinity` / `null`). -/
def findOldest {T : Type} (m : CacheMap T) : Option (List Char) × Option ℚ :=
  m.foldl
    (fun acc kv =>
      match acc.2 with
      | none => (some kv.1, some kv.2.timestamp)
      | some t => if kv.2.timestamp < t then (some kv.1, some kv.2.timestamp) else acc)
    (none, none)

/-- `AICache.set(prompt, response)` at time `now`: normalize the key; if the
cache is full and the key is new, run the oldest-entry scan and delete the
key it found; then insert the new entry with a fresh timestamp.  The delete
is guarded by the JavaScript truthiness test `if (oldestKey)`, which skips
it both when no key was found (`null`, the `none` case) and when the oldest
entry's key is the empty string (falsy), so in the latter case the cache
grows past `maxSize`. -/
def AICache.set {T : Type} (cfg : CacheConfig) (m : CacheMap T)
    (prompt : List Char) (response : T) (now : ℚ) : CacheMap T :=
  let normalizedPrompt := normalizePrompt prompt
  let m1 :=
    if cfg.maxSize ≤ (m.length : ℚ) ∧ (mapFind m normalizedPrompt).isNone then
      match (findOldest m).1 with
      | some oldestKey => if oldestKey ≠ [] then mapDelete m oldestKey else m
      | none => m
    else m
  mapSet m1 normalizedPrompt
    { response := response, timestamp := now, prompt := normalizedPrompt }

/-- The fuzzy-match loop of `AICache.get`: walk the entries in order,
deleting expired ones, and return the first whose similarity to the
normalized prompt reaches the threshold, together with the surviving
entries. -/
def fuzzyScan {T : Type} (cfg : CacheConfig) (normalizedPrompt : List Char)
    (now : ℚ) : CacheMap T → Option T × CacheMap T
  | [] => (none, [])
  | (k, e) :: rest =>
    if cfg.ttlMs ≤ now - e.timestamp then fuzzyScan cfg normalizedPrompt now rest
    else if cfg.similarityThreshold ≤ calculateSimilarity normalizedPrompt k then
      (some e.response, (k, e) :: rest)
    else
      let r := fuzzyScan cfg normalizedPrompt now rest
      (r.1, (k, e) :: r.2)

/-- The fuzzy phase of `AICache.get`: runs only when fuzzy matching is
enabled and the threshold is below `1.0`. -/
def AICache.fuzzyPhase {T : Type} (cfg : CacheConfig) (normalizedPrompt : List Char)
    (now : ℚ) (m : CacheMap T) : Option T × CacheMap T :=
  if cfg.enableFuzzyMatching ∧ cfg.similarityThreshold < 1 then
    fuzzyScan cfg normalizedPrompt now m
  else (none, m)

/-- `AICache.get(prompt)` at time `now`: normalize; exact-key hit within the
TTL returns the stored response; an expired exact entry is deleted; then the
fuzzy phase runs.  Returns the response (or `none`) and the updated map. -/
def AICache.get {T : Type} (cfg : CacheConfig) (m : CacheMap T)
    (prompt : List Char) (now : ℚ) : Option T × CacheMap T :=
  let normalizedPrompt := normalizePrompt prompt
  match mapFind m normalizedPrompt with
  | some entry =>
    if now - entry.timestamp < cfg.ttlMs then (some entry.response, m)
    else AICache.fuzzyPhase cfg normalizedPrompt now (mapDelete m normalizedPrompt)
  | none => AICache.fuzzyPhase cfg normalizedPrompt now m

/-! ## RequestBatcher (src/batcher.ts)

Two views of the batcher.  The event-interleaving view (`BatcherState`,
`BatcherStep`) models the class's mutable fields and the four events that
can touch them — an `addRequest` call, the firing of the armed `setTimeout`,
the completion (fulfilment or rejection) of the in-flight
`processBatchFn` promise, and a `clearQueue` call.  Requests are identified
by the id counter; `resolved` records every promise settlement (resolution
or rejection) that has been performed, in order.

The data-flow view (`drainDispatches`) models the value computation of
`processBatch`: how the queue is cut into batches, what the injected
function is called with, and which value or error each queued request's
promise is settled with. -/

/-- The mutable fields of a `RequestBatcher`, with queued requests
abbreviated to their numeric ids.  `inFlight = some batch` models
`isProcessing = true` with `batch` the spliced-off requests awaiting the
`processBatchFn` promise; `timerArmed` models `batchTimer !== null`. -/
structure BatcherState where
  queue : List ℕ
  inFlight : Option (List ℕ)
  timerArmed : Bool
  nextId : ℕ
  resolved : List ℕ
  deriving DecidableEq, Repr

/-- The state at construction time. -/
def BatcherState.init : BatcherState :=
  { queue := [], inFlight := none, timerArmed := false, nextId := 0, resolved := [] }

/-- The synchronous prefix of `processBatch()`: return unless idle with a
non-empty queue; otherwise set `isProcessing`, clear the timer and splice
off the first `maxB` requests. -/
def processBatchSync (maxB : ℕ) (s : BatcherState) : BatcherState :=
  if s.inFlight.isSome ∨ s.queue = [] then s
  else
    { s with
      timerArmed := false
      inFlight := some (s.queue.take maxB)
      queue := s.queue.drop maxB }

/-- The synchronous body of `addRequest`: push the request, arm the delay
timer when no timer is armed and nothing is processing, and dispatch
immediately (cancelling the timer) when the queue has reached `maxB` and
nothing is processing. -/
def addRequestStep (maxB : ℕ) (s : BatcherState) : BatcherState :=
  let s1 := { s with queue := s.queue ++ [s.nextId], nextId := s.nextId + 1 }
  let s2 :=
    if ¬s1.timerArmed ∧ s1.inFlight.isNone then { s1 with timerArmed := true } else s1
  if maxB ≤ s2.queue.length ∧ s2.inFlight.isNone then
    processBatchSync maxB { s2 with timerArmed := false }
  else s2

/-- The events that can interleave on one `RequestBatcher`. -/
inductive BatcherStep (maxB : ℕ) : BatcherState → BatcherState → Prop
  | addRequest (s : BatcherState) :
      BatcherStep maxB s (addRequestStep maxB s)
  | timerFire (s : BatcherState) (h : s.timerArmed = true) :
      BatcherStep maxB s (processBatchSync maxB { s with timerArmed := false })
  | complete (s : BatcherState) (b : List ℕ) (h : s.inFlight = some b) :
      BatcherStep maxB s
        { s with
          inFlight := none
          resolved := s.resolved ++ b
          timerArmed := if s.queue = [] then s.timerArmed else true }
  | clearQueue (s : BatcherState) :
      BatcherStep maxB s
        { s with queue := [], resolved := s.resolved ++ s.queue, timerArmed := false }

/-- States a `RequestBatcher` can reach from construction under any
interleaving of events. -/
def BatcherReachable (maxB : ℕ) (s : BatcherState) : Prop :=
  Relation.ReflTransGen (BatcherStep maxB) BatcherState.init s

/-- The batcher invariant: every issued id is, exactly once, either still
queued, in the in-flight batch, or settled; and a non-empty queue always has
a timer armed or a dispatch in flight. -/
def BatcherInv (s : BatcherState) : Prop :=
  (s.resolved ++ s.queue ++ s.inFlight.getD []).Perm (List.range s.nextId) ∧
    (s.queue ≠ [] → s.timerArmed = true ∨ s.inFlight.isSome = true)

/-- A queued request in the data-flow view: its id, prompt and options. -/
structure QueuedRequest where
  id : ℕ
  prompt : String
  deriving DecidableEq, Repr

/-- The settlement a queued request's promise receives: `Except.error e` for
a rejection with the batch error, `Except.ok r` for a resolution with
`results[index]` (`none` when that index is out of bounds, i.e. the
JavaScript `undefined`). -/
abbrev Settlement (E R : Type) : Type := Except E (Option R)

/-- The `try`/`catch` body of one `processBatch` dispatch: call the injected
function on the batch's prompts; on fulfilment resolve each request with the
same-index result, on rejection reject every request with the one error. -/
def processOneBatch {E R : Type} (f : List String → Except E (List R))
    (batch : List QueuedRequest) : List (ℕ × Settlement E R) :=
  match f (batch.map QueuedRequest.prompt) with
  | Except.ok results => batch.mapIdx (fun index item => (item.id, Except.ok (results.get? index)))
  | Except.error e => batch.map (fun item => (item.id, Except.error e))

/-- The dispatch loop (each `processBatch` reschedules itself from its
`finally` block while the queue is non-empty): repeatedly splice off the
first `maxB` requests and process them.  The fuel argument bounds the number
of dispatch cycles; `queue.length` cycles always suffice when `maxB ≥ 1`.
Returns the list of dispatches, each with its batch and the settlements it
performed. -/
def drainAux {E R : Type} (maxB : ℕ) (f : List String → Except E (List R)) :
    ℕ → List QueuedRequest → List (List QueuedRequest × List (ℕ × Settlement E R))
  | 0, _ => []
  | _ + 1, [] => []
  | fuel + 1, q@(_ :: _) =>
    (q.take maxB, processOneBatch f (q.take maxB)) :: drainAux maxB f fuel (q.drop maxB)

/-- All dispatches performed when a queue of requests is drained. -/
def drainDispatches {E R : Type} (maxB : ℕ) (f : List String → Except E (List R))
    (q : List QueuedRequest) : List (List QueuedRequest × List (ℕ × Settlement E R)) :=
  drainAux maxB f q.length q

/-- The settlements of a drain, in the order they are performed. -/
def drainSettlements {E R : Type} (maxB : ℕ) (f : List String → Except E (List R))
    (q : List QueuedRequest) : List (ℕ × Settlement E R) :=
  ((drainDispatches maxB f q).map (fun d => d.2)).flatten

/-! ## Theorems -/

/-- C10: in the `AICache` constructor, a numeric option explicitly passed as
`0` is treated as absent because defaulting uses the `||` operator:
`similarityThreshold: 0` becomes `0.95`, `maxSize: 0` becomes `1000` and
`ttlMs: 0` becomes `3600000`; consequently no caller can configure a
similarity threshold of `0`. -/
theorem aicache_zero_options_defaulted :
    AICache.initConfig
        { maxSize := some 0, ttlMs := some 0, similarityThreshold := some 0,
          enableFuzzyMatching := none } =
      { maxSize := 1000, ttlMs := 3600000, similarityThreshold := 95 / 100,
        enableFuzzyMatching := true } ∧
    ∀ o : CacheOptions, (AICache.initConfig o).similarityThreshold ≠ 0 := by
  refine ⟨by simp [AICache.initConfig, jsNumOr], ?_⟩
  intro o
  unfold AICache.initConfig jsNumOr
  cases h : o.similarityThreshold with
  | none => norm_num
  | some v =>
    dsimp only
    split_ifs with hv
    · norm_num
    · exact hv

/-- C9 counterexample: a failed `takeTokens` call does mutate the bucket.
Starting from an empty bucket (capacity 10, rate 1/100 token per ms,
last refill at 0), `takeTokens(5)` at time 100 fails, yet afterwards
`tokens = 1` and `lastRefill = 100`: the state differs from the one before
the call. -/
theorem tokenBucket_failed_take_mutates :
    (TokenBucket.takeTokens ⟨0, 10, 1 / 100, 0⟩ 100 5).1 = false ∧
    (TokenBucket.takeTokens ⟨0, 10, 1 / 100, 0⟩ 100 5).2 ≠ ⟨0, 10, 1 / 100, 0⟩ := by
  constructor <;>
    norm_num [TokenBucket.takeTokens, TokenBucket.refill, min_def, TokenBucket.mk.injEq]

/-- C9 (amended): when the lazily refilled level is below `count`,
`takeTokens` returns failure and performs no mutation beyond the lazy
refill — the resulting bucket is exactly the refilled one; in particular,
when no time has elapsed the bucket is entirely unchanged. -/
theorem tokenBucket_failed_take_only_refills (s : TokenBucket) (now count : ℚ)
    (h : (s.refill now).tokens < count) :
    s.takeTokens now count = (false, s.refill now) ∧
    (now - s.lastRefill ≤ 0 → s.takeTokens now count = (false, s)) := by
  have h1 : ¬ count ≤ (s.refill now).tokens := not_le.mpr h
  refine ⟨by simp [TokenBucket.takeTokens, h1], ?_⟩
  intro ht
  have hid : s.refill now = s := by
    simp [TokenBucket.refill, not_lt.mpr ht]
  rw [hid] at h1
  simp [TokenBucket.takeTokens, hid, h1]

/-- Witness for `tokenBucket_failed_take_only_refills` at the bucket
`⟨0, 10, 1/100, 0⟩`, `now = 100`, `count = 5`. -/
theorem tokenBucket_failed_take_only_refills_witness :
    (TokenBucket.refill ⟨0, 10, 1 / 100, 0⟩ 100).tokens < 5 ∧
    (TokenBucket.takeTokens ⟨0, 10, 1 / 100, 0⟩ 100 5 =
        (false, TokenBucket.refill ⟨0, 10, 1 / 100, 0⟩ 100) ∧
      ((100 : ℚ) - (⟨0, 10, 1 / 100, 0⟩ : TokenBucket).lastRefill ≤ 0 →
        TokenBucket.takeTokens ⟨0, 10, 1 / 100, 0⟩ 100 5 = (false, ⟨0, 10, 1 / 100, 0⟩))) :=
  ⟨by norm_num [TokenBucket.refill, min_def],
   tokenBucket_failed_take_only_refills _ _ _
     (by norm_num [TokenBucket.refill, min_def])⟩

/-- Helper: `refill` preserves well-formedness. -/
theorem tokenBucket_refill_WF (s : TokenBucket) (capacity window now : ℚ)
    (hWF : s.WF capacity window) : (s.refill now).WF capacity window := by
  obtain ⟨hc, hw, hmax, hrate, h0, h1⟩ := hWF
  have hr0 : 0 ≤ s.refillRate := by
    rw [hrate]; exact le_of_lt (div_pos hc hw)
  rw [TokenBucket.refill]
  split_ifs with h
  · exact ⟨hc, hw, hmax, hrate,
      le_min (le_of_lt (hmax ▸ hc))
        (add_nonneg h0 (mul_nonneg (le_of_lt h) hr0)),
      le_of_le_of_eq (min_le_left _ _) hmax⟩
  · exact ⟨hc, hw, hmax, hrate, h0, h1⟩

/-- C8: for a bucket built from a positive capacity and refill window, the
token level stays within `[0, capacity]` across the lazy refill and across
`takeTokens` (which only subtracts when enough tokens are present), and
after at least a full refill window has elapsed `getTokens` reports exactly
the capacity, never more. -/
theorem tokenBucket_level_in_range (s : TokenBucket) (capacity window now count : ℚ)
    (hWF : s.WF capacity window) (hcount : 0 ≤ count) :
    (s.refill now).WF capacity window ∧
    ((s.takeTokens now count).2).WF capacity window ∧
    (window ≤ now - s.lastRefill → (s.getTokens now).1 = capacity) := by
  have hWF1 := tokenBucket_refill_WF s capacity window now hWF
  obtain ⟨hc, hw, hmax, hrate, h0, h1⟩ := hWF
  refine ⟨hWF1, ?_, ?_⟩
  · rw [TokenBucket.takeTokens]
    obtain ⟨hc1, hw1, hmax1, hrate1, h01, h11⟩ := hWF1
    split_ifs with h
    · exact ⟨hc1, hw1, hmax1, hrate1, sub_nonneg.mpr h,
        le_trans (sub_le_self _ hcount) h11⟩
    · exact ⟨hc1, hw1, hmax1, hrate1, h01, h11⟩
  · intro hfull
    have hpos : 0 < now - s.lastRefill := lt_of_lt_of_le hw hfull
    have hr0 : 0 ≤ s.refillRate := by
      rw [hrate]; exact le_of_lt (div_pos hc hw)
    have hgain : capacity ≤ s.tokens + (now - s.lastRefill) * s.refillRate := by
      have step1 : window * s.refillRate ≤ (now - s.lastRefill) * s.refillRate :=
        mul_le_mul_of_nonneg_right hfull hr0
      have step2 : window * s.refillRate = capacity := by
        rw [hrate]; field_simp
      calc capacity = window * s.refillRate := step2.symm
        _ ≤ (now - s.lastRefill) * s.refillRate := step1
        _ ≤ s.tokens + (now - s.lastRefill) * s.refillRate := le_add_of_nonneg_left h0
    rw [TokenBucket.getTokens, TokenBucket.refill]
    simp only [hpos, if_true]
    rw [hmax]
    exact min_eq_left hgain

/-- Witness for `tokenBucket_level_in_range` at a full bucket of capacity 10
and window 1000 ms, taken at `now = 1000` with `count = 1`. -/
theorem tokenBucket_level_in_range_witness :
    (⟨10, 10, 10 / 1000, 0⟩ : TokenBucket).WF 10 1000 ∧ (0 : ℚ) ≤ 1 ∧
    ((TokenBucket.refill ⟨10, 10, 10 / 1000, 0⟩ 1000).WF 10 1000 ∧
      ((TokenBucket.takeTokens ⟨10, 10, 10 / 1000, 0⟩ 1000 1).2).WF 10 1000 ∧
      ((1000 : ℚ) ≤ 1000 - (⟨10, 10, 10 / 1000, 0⟩ : TokenBucket).lastRefill →
        (TokenBucket.getTokens ⟨10, 10, 10 / 1000, 0⟩ 1000).1 = 10)) :=
  ⟨by norm_num [TokenBucket.WF], by norm_num,
   tokenBucket_level_in_range _ 10 1000 1000 1 (by norm_num [TokenBucket.WF]) (by norm_num)⟩

/-- C4: `acquireToken(weight)` is granted when the immediate `takeTokens`
succeeds; when it fails, the call is denied exactly when `autoWait` is
false, or the computed wait time exceeds `maxWaitTimeMs`, or the single
post-wait retry of `takeTokens` fails; and whenever `autoWait` holds and
the wait fits the bound, the call's result is exactly the outcome of that
one retry (no further retries).  The positive-rate hypothesis restricts to
buckets arising from a positive constructor configuration, where the
rational model of the wait-time division agrees with the source. -/
theorem rateLimiter_acquireToken_cases (cfg : RateLimiterConfig) (s : TokenBucket)
    (now1 now2 weight : ℚ) (_hrate : 0 < s.refillRate) :
    ((s.takeTokens now1 weight).1 = true →
      RateLimiter.acquireToken cfg s now1 now2 weight = s.takeTokens now1 weight) ∧
    ((s.takeTokens now1 weight).1 = false →
      ((RateLimiter.acquireToken cfg s now1 now2 weight).1 = false ↔
        (cfg.autoWait = false ∨
          cfg.maxWaitTimeMs < ((s.takeTokens now1 weight).2.getWaitTimeMs now1 weight).1 ∨
          (((s.takeTokens now1 weight).2.getWaitTimeMs now1 weight).2.takeTokens now2 weight).1 =
            false)) ∧
      (cfg.autoWait = true →
        ((s.takeTokens now1 weight).2.getWaitTimeMs now1 weight).1 ≤ cfg.maxWaitTimeMs →
        RateLimiter.acquireToken cfg s now1 now2 weight =
          ((s.takeTokens now1 weight).2.getWaitTimeMs now1 weight).2.takeTokens now2 weight)) := by
  refine ⟨?_, ?_⟩
  · intro h
    simp [RateLimiter.acquireToken, h]
  · intro h
    refine ⟨?_, ?_⟩
    · by_cases hA : cfg.autoWait = true
      · by_cases hw :
            cfg.maxWaitTimeMs < ((s.takeTokens now1 weight).2.getWaitTimeMs now1 weight).1
        · have hacq : RateLimiter.acquireToken cfg s now1 now2 weight =
              (false, ((s.takeTokens now1 weight).2.getWaitTimeMs now1 weight).2) := by
            simp [RateLimiter.acquireToken, h, hA, hw]
          rw [hacq]
          simp [hA, hw]
        · have hacq : RateLimiter.acquireToken cfg s now1 now2 weight =
              ((s.takeTokens now1 weight).2.getWaitTimeMs now1 weight).2.takeTokens now2 weight := by
            simp [RateLimiter.acquireToken, h, hA, hw]
          rw [hacq]
          simp [hA, hw]
      · have hA2 : cfg.autoWait = false := by simpa using hA
        have hacq : RateLimiter.acquireToken cfg s now1 now2 weight =
            (false, (s.takeTokens now1 weight).2) := by
          simp [RateLimiter.acquireToken, h, hA2]
        rw [hacq]
        simp [hA2]
    · intro hA hw
      simp [RateLimiter.acquireToken, h, hA, not_lt.mpr hw]

/-- Witness for `rateLimiter_acquireToken_cases`: an empty bucket of
capacity 10 refilling one token per 100 ms, `maxWaitTimeMs = 60000`,
`autoWait = true`, weight 5, first attempt at time 0 and retry at 500. -/
theorem rateLimiter_acquireToken_cases_witness :
    (0 : ℚ) < (⟨0, 10, 1 / 100, 0⟩ : TokenBucket).refillRate ∧
    (((TokenBucket.takeTokens ⟨0, 10, 1 / 100, 0⟩ 0 5).1 = true →
        RateLimiter.acquireToken ⟨60000, true⟩ ⟨0, 10, 1 / 100, 0⟩ 0 500 5 =
          TokenBucket.takeTokens ⟨0, 10, 1 / 100, 0⟩ 0 5) ∧
      ((TokenBucket.takeTokens ⟨0, 10, 1 / 100, 0⟩ 0 5).1 = false →
        ((RateLimiter.acquireToken ⟨60000, true⟩ ⟨0, 10, 1 / 100, 0⟩ 0 500 5).1 = false ↔
          ((⟨60000, true⟩ : RateLimiterConfig).autoWait = false ∨
            (⟨60000, true⟩ : RateLimiterConfig).maxWaitTimeMs <
              ((TokenBucket.takeTokens ⟨0, 10, 1 / 100, 0⟩ 0 5).2.getWaitTimeMs 0 5).1 ∨
            (((TokenBucket.takeTokens ⟨0, 10, 1 / 100, 0⟩ 0 5).2.getWaitTimeMs 0 5).2.takeTokens
                500 5).1 = false)) ∧
        ((⟨60000, true⟩ : RateLimiterConfig).autoWait = true →
          ((TokenBucket.takeTokens ⟨0, 10, 1 / 100, 0⟩ 0 5).2.getWaitTimeMs 0 5).1 ≤
            (⟨60000, true⟩ : RateLimiterConfig).maxWaitTimeMs →
          RateLimiter.acquireToken ⟨60000, true⟩ ⟨0, 10, 1 / 100, 0⟩ 0 500 5 =
            ((TokenBucket.takeTokens ⟨0, 10, 1 / 100, 0⟩ 0 5).2.getWaitTimeMs 0 5).2.takeTokens
              500 5))) :=
  ⟨by norm_num,
   rateLimiter_acquireToken_cases ⟨60000, true⟩ ⟨0, 10, 1 / 100, 0⟩ 0 500 5 (by norm_num)⟩

/-- Helper: each cell the inner Levenshtein loop produces is bounded using
only the diagonal term of the three-way minimum: if the previous row (seen
from column `c`) is bounded by `max (c + k) i`, the produced cells are
bounded by `max (c + 1 + k) (i + 1)`. -/
theorem levRowRest_getD_le (bc : Char) (as : List Char) :
    ∀ (left : ℕ) (prev : List ℕ) (c i : ℕ),
      (∀ k, prev.getD k 0 ≤ max (c + k) i) →
      left ≤ max c (i + 1) →
      ∀ k, (levRowRest bc as left prev).getD k 0 ≤ max (c + 1 + k) (i + 1) := by
  induction as with
  | nil =>
    intro left prev c i hprev hleft k
    simp [levRowRest]
  | cons ac as ih =>
    intro left prev c i hprev hleft k
    match prev with
    | [] => simp [levRowRest]
    | [d] => simp [levRowRest]
    | diag :: up :: rest =>
      rw [levRowRest]
      have hdiag : diag ≤ max c i := by
        have := hprev 0
        simpa using this
      have hcell :
          min (min (up + 1) (left + 1)) (diag + (if ac = bc then 0 else 1)) ≤
            max (c + 1) (i + 1) := by
        have h1 : diag + (if ac = bc then 0 else 1) ≤ max c i + 1 := by
          have hcost : (if ac = bc then 0 else 1) ≤ 1 := by split <;> omega
          omega
        have h2 : max c i + 1 = max (c + 1) (i + 1) := by omega
        exact le_trans (le_trans (min_le_right _ _) h1) (le_of_eq h2)
      cases k with
      | zero => simpa using hcell
      | succ k =>
        simp only [List.getD_cons_succ]
        have hprev2 : ∀ k2, (up :: rest).getD k2 0 ≤ max (c + 1 + k2) i := by
          intro k2
          have h4 := hprev (k2 + 1)
          rw [List.getD_cons_succ] at h4
          have heq : c + (k2 + 1) = c + 1 + k2 := by omega
          rwa [heq] at h4
        have hrec := ih _ (up :: rest) (c + 1) i hprev2 hcell k
        have heq2 : c + 1 + 1 + k = c + 1 + (k + 1) := by omega
        rw [heq2] at hrec
        exact hrec

/-- Helper: one outer Levenshtein pass maps a row bounded by `max k i` to a
row bounded by `max k (i + 1)`. -/
theorem levNextRow_getD_le (a : List Char) (bc : Char) (prev : List ℕ) (i : ℕ)
    (hprev : ∀ k, prev.getD k 0 ≤ max k i) :
    ∀ k, (levNextRow a bc prev).getD k 0 ≤ max k (i + 1) := by
  have hhead : prev.headD 0 ≤ i := by
    have h0 := hprev 0
    match prev with
    | [] => simp
    | x :: xs => simpa using h0
  intro k
  rw [levNextRow]
  cases k with
  | zero => simpa using Nat.le_trans (Nat.add_le_add_right hhead 1) (Nat.le_max_right 0 (i + 1))
  | succ k =>
    have hprev0 : ∀ k, prev.getD k 0 ≤ max (0 + k) i := by
      intro k; simpa using hprev k
    have hleft : prev.headD 0 + 1 ≤ max 0 (i + 1) := by
      simpa using Nat.add_le_add_right hhead 1
    have := levRowRest_getD_le bc a (prev.headD 0 + 1) prev 0 i hprev0 hleft k
    simpa [Nat.add_comm 1 k] using this

/-- Helper: all outer passes together keep every cell at most
`max k (i + rows)`. -/
theorem levRows_getD_le (a : List Char) (bs : List Char) :
    ∀ (prev : List ℕ) (i : ℕ),
      (∀ k, prev.getD k 0 ≤ max k i) →
      ∀ k, (levRows a bs prev).getD k 0 ≤ max k (i + bs.length) := by
  induction bs with
  | nil =>
    intro prev i hprev k
    simpa using hprev k
  | cons bc bs ih =>
    intro prev i hprev k
    rw [levRows]
    have := ih (levNextRow a bc prev) (i + 1) (levNextRow_getD_le a bc prev i hprev) k
    simpa [Nat.add_assoc, Nat.add_comm 1 bs.length] using this

/-- Helper: the Levenshtein distance never exceeds the longer length. -/
theorem levenshteinDistance_le_max (a b : List Char) :
    levenshteinDistance a b ≤ max a.length b.length := by
  have hrow0 : ∀ k, (List.range (a.length + 1)).getD k 0 ≤ max k 0 := by
    intro k
    by_cases h : k < a.length + 1
    · rw [List.getD_eq_getElem _ _ (by simpa using h)]
      simp
    · rw [List.getD_eq_default _ _ (by simpa using Nat.le_of_not_lt h)]
      simp
  have := levRows_getD_le a b (List.range (a.length + 1)) 0 hrow0 a.length
  simpa [levenshteinDistance] using this

/-- C5: `calculateSimilarity` coincides with the specification's piecewise
reference definition (`1.0` on equal strings — hence on two empty strings —
`0.0` when exactly one string is empty, otherwise
`1 − levenshteinDistance(a,b) / max(|a|,|b|)`), and its value always lies
in the closed interval `[0, 1]`. -/
theorem calculateSimilarity_spec_and_range :
    (∀ a b : List Char, calculateSimilarity a b = similaritySpecRef a b) ∧
    (∀ a b : List Char, 0 ≤ calculateSimilarity a b ∧ calculateSimilarity a b ≤ 1) := by
  constructor
  · intro a b
    unfold calculateSimilarity similaritySpecRef
    by_cases hab : a = b
    · simp [hab]
    · by_cases hae : a = []
      · have hbe : b ≠ [] := by
          intro hb
          exact hab (by rw [hae, hb])
        simp [hab, hae, hbe]
      · by_cases hbe : b = []
        · simp [hab, hae, hbe]
        · have hlen : ¬ max a.length b.length = 0 := by
            intro h
            rcases Nat.max_eq_zero_iff.mp h with ⟨h1, _⟩
            exact hae (List.eq_nil_of_length_eq_zero h1)
          simp [hab, hae, hbe, hlen]
  · intro a b
    unfold calculateSimilarity
    by_cases hab : a = b
    · simp [hab]
    · by_cases he : a = [] ∨ b = []
      · simp [hab, he]
      · push_neg at he
        have hlen : ¬ max a.length b.length = 0 := by
          intro h
          rcases Nat.max_eq_zero_iff.mp h with ⟨h1, _⟩
          exact he.1 (List.eq_nil_of_length_eq_zero h1)
        have hmpos : (0 : ℚ) < ((max a.length b.length : ℕ) : ℚ) := by
          exact_mod_cast Nat.pos_of_ne_zero hlen
        have hd : (levenshteinDistance a b : ℚ) ≤ ((max a.length b.length : ℕ) : ℚ) := by
          exact_mod_cast levenshteinDistance_le_max a b
        have hq1 : (levenshteinDistance a b : ℚ) / ((max a.length b.length : ℕ) : ℚ) ≤ 1 :=
          (div_le_one hmpos).mpr hd
        have hq0 : (0 : ℚ) ≤ (levenshteinDistance a b : ℚ) / ((max a.length b.length : ℕ) : ℚ) :=
          div_nonneg (by positivity) (le_of_lt hmpos)
        have hne : a = [] ∨ b = [] ↔ False := by simp [he.1, he.2]
        simp only [hab, if_false, hne, hlen]
        constructor
        · linarith
        · linarith

/-- Helper: after `mapSet m k v`, key `k` is bound to `v` (both in the
overwrite and in the append branch). -/
theorem mapFind_mapSet_self {T : Type} (m : CacheMap T) (k : List Char) (v : CacheEntry T) :
    mapFind (mapSet m k v) k = some v := by
  unfold mapSet
  split_ifs with h
  · unfold mapFind
    rw [List.find?_map]
    have hcong :
        ((fun kv : List Char × CacheEntry T => decide (kv.1 = k)) ∘
          (fun kv : List Char × CacheEntry T => if kv.1 = k then (k, v) else kv)) =
          fun kv : List Char × CacheEntry T => decide (kv.1 = k) := by
      funext kv
      by_cases hk : kv.1 = k
      · simp [hk]
      · simp [hk]
    rw [hcong]
    obtain ⟨w, hw⟩ := Option.isSome_iff_exists.mp h
    have hwk : w.1 = k := by simpa using List.find?_some hw
    rw [hw]
    simp [hwk]
  · unfold mapFind
    rw [List.find?_append]
    have hnone : m.find? (fun kv => kv.1 = k) = none := by
      cases hf : m.find? (fun kv => kv.1 = k)
      · rfl
      · rw [hf] at h; simp at h
    rw [hnone]
    simp

/-- Helper: deleting some key cannot make an absent key present. -/
theorem mapFind_mapDelete_of_none {T : Type} (m : CacheMap T) (k n : List Char)
    (h : mapFind m n = none) : mapFind (mapDelete m k) n = none := by
  unfold mapFind at h ⊢
  unfold mapDelete
  have h2 : m.find? (fun kv => kv.1 = n) = none := by
    cases hf : m.find? (fun kv => kv.1 = n)
    · rfl
    · rw [hf] at h; simp at h
  rw [List.find?_eq_none] at h2
  have h3 : ∀ x ∈ m.eraseP (fun kv => kv.1 = k), ¬(decide (x.1 = n) = true) :=
    fun x hx => h2 x ((List.eraseP_sublist m).subset hx)
  rw [List.find?_eq_none.mpr h3]
  rfl

/-- Helper: an overwrite keeps the map size, an append grows it by one. -/
theorem mapSet_length {T : Type} (m : CacheMap T) (k : List Char) (v : CacheEntry T) :
    ((mapFind m k).isSome → (mapSet m k v).length = m.length) ∧
    (mapFind m k = none → (mapSet m k v).length = m.length + 1) := by
  constructor
  · intro h
    have h1 : (m.find? (fun kv => kv.1 = k)).isSome := by
      unfold mapFind at h
      cases hf : m.find? (fun kv => kv.1 = k)
      · rw [hf] at h; simp at h
      · rfl
    simp [mapSet, h1]
  · intro h
    have h1 : m.find? (fun kv => kv.1 = k) = none := by
      unfold mapFind at h
      cases hf : m.find? (fun kv => kv.1 = k)
      · rfl
      · rw [hf] at h; simp at h
    simp [mapSet, h1]

/-- Helper: the oldest-entry fold, started from a candidate `(k0, t0)`,
yields a key of `m` (or the candidate itself) whose timestamp is at most
`t0` and at most every timestamp in `m`. -/
theorem foldOldest_spec {T : Type} :
    ∀ (m : CacheMap T) (k0 : List Char) (t0 : ℚ),
      ∃ k t,
        m.foldl
            (fun acc kv =>
              match acc.2 with
              | none => (some kv.1, some kv.2.timestamp)
              | some tacc =>
                if kv.2.timestamp < tacc then (some kv.1, some kv.2.timestamp) else acc)
            (some k0, some t0) = (some k, some t) ∧
        t ≤ t0 ∧
        ((k = k0 ∧ t = t0) ∨ ∃ e, (k, e) ∈ m ∧ e.timestamp = t) ∧
        ∀ kv ∈ m, t ≤ kv.2.timestamp := by
  intro m
  induction m with
  | nil =>
    intro k0 t0
    exact ⟨k0, t0, rfl, le_refl _, Or.inl ⟨rfl, rfl⟩, by simp⟩
  | cons hd rest ih =>
    intro k0 t0
    rw [List.foldl_cons]
    by_cases hlt : hd.2.timestamp < t0
    · obtain ⟨k, t, heq, hle, horig, hall⟩ := ih hd.1 hd.2.timestamp
      refine ⟨k, t, ?_, le_trans hle (le_of_lt hlt), ?_, ?_⟩
      · simpa [hlt] using heq
      · rcases horig with ⟨hk, ht⟩ | ⟨e, hmem, hts⟩
        · refine Or.inr ⟨hd.2, ?_, ht.symm ▸ rfl⟩
          rw [hk]
          exact List.mem_cons_self _ _
        · exact Or.inr ⟨e, List.mem_cons_of_mem _ hmem, hts⟩
      · intro kv hkv
        rcases List.mem_cons.mp hkv with rfl | hkv2
        · exact hle
        · exact hall kv hkv2
    · obtain ⟨k, t, heq, hle, horig, hall⟩ := ih k0 t0
      refine ⟨k, t, ?_, hle, ?_, ?_⟩
      · simpa [hlt] using heq
      · rcases horig with h | ⟨e, hmem, hts⟩
        · exact Or.inl h
        · exact Or.inr ⟨e, List.mem_cons_of_mem _ hmem, hts⟩
      · intro kv hkv
        rcases List.mem_cons.mp hkv with rfl | hkv2
        · exact le_trans hle (not_lt.mp hlt)
        · exact hall kv hkv2

/-- Helper: on a non-empty map, `findOldest` returns the key of an entry
whose timestamp is minimal among all entries. -/
theorem findOldest_spec {T : Type} (m : CacheMap T) (hne : m ≠ []) :
    ∃ k e, (findOldest m).1 = some k ∧ (k, e) ∈ m ∧
      ∀ kv ∈ m, e.timestamp ≤ kv.2.timestamp := by
  match m, hne with
  | (k1, e1) :: rest, _ =>
    have hstep : findOldest ((k1, e1) :: rest) =
        List.foldl
          (fun acc kv =>
            match acc.2 with
            | none => (some kv.1, some kv.2.timestamp)
            | some tacc =>
              if kv.2.timestamp < tacc then (some kv.1, some kv.2.timestamp) else acc)
          (some k1, some e1.timestamp) rest := rfl
    obtain ⟨k, t, heq, hle, horig, hall⟩ := foldOldest_spec rest k1 e1.timestamp
    rcases horig with ⟨hk, ht⟩ | ⟨e, hmem, hts⟩
    · subst hk
      subst ht
      refine ⟨k, e1, ?_, List.mem_cons_self _ _, ?_⟩
      · rw [hstep, heq]
      · intro kv hkv
        rcases List.mem_cons.mp hkv with rfl | hkv2
        · exact le_refl _
        · exact hall kv hkv2
    · subst hts
      refine ⟨k, e, ?_, List.mem_cons_of_mem _ hmem, ?_⟩
      · rw [hstep, heq]
      · intro kv hkv
        rcases List.mem_cons.mp hkv with rfl | hkv2
        · exact hle
        · exact hall kv hkv2

/-- Helper: immediately after `AICache.set`, the normalized key of the
stored prompt is bound to the freshly written entry, whether or not the
insertion overwrote or evicted. -/
theorem aicache_find_after_set {T : Type} (cfg : CacheConfig) (m : CacheMap T)
    (p : List Char) (r : T) (t : ℚ) :
    mapFind (AICache.set cfg m p r t) (normalizePrompt p) =
      some { response := r, timestamp := t, prompt := normalizePrompt p } := by
  unfold AICache.set
  exact mapFind_mapSet_self _ _ _

/-- C7: cache store followed by lookup is normalization-insensitive: after
`set(p, R)` at time `t`, a `get(q)` at any time within the TTL returns `R`
for every `q` whose normalization agrees with that of `p` (differences in
surrounding whitespace, letter case, or internal whitespace runs). -/
theorem cache_store_lookup_normalization {T : Type} (cfg : CacheConfig) (m : CacheMap T)
    (p q : List Char) (r : T) (t now : ℚ)
    (hq : normalizePrompt q = normalizePrompt p)
    (httl : now - t < cfg.ttlMs) :
    (AICache.get cfg (AICache.set cfg m p r t) q now).1 = some r := by
  unfold AICache.get
  rw [hq]
  dsimp only
  rw [aicache_find_after_set]
  simp [httl]

/-- Witness for `cache_store_lookup_normalization`: storing under
`"Hello World"` and looking up `"  hello   world  "` one millisecond later
in an initially empty cache with the default configuration. -/
theorem cache_store_lookup_normalization_witness :
    normalizePrompt "  hello   world  ".toList = normalizePrompt "Hello World".toList ∧
    (1 : ℚ) - 0 <
      (AICache.initConfig
          { maxSize := none, ttlMs := none, similarityThreshold := none,
            enableFuzzyMatching := none }).ttlMs ∧
    (AICache.get
        (AICache.initConfig
          { maxSize := none, ttlMs := none, similarityThreshold := none,
            enableFuzzyMatching := none })
        (AICache.set
          (AICache.initConfig
            { maxSize := none, ttlMs := none, similarityThreshold := none,
              enableFuzzyMatching := none })
          [] "Hello World".toList (42 : ℕ) 0)
        "  hello   world  ".toList 1).1 = some 42 :=
  ⟨by decide, by norm_num [AICache.initConfig, jsNumOr],
   cache_store_lookup_normalization _ _ _ _ _ _ _ (by decide)
     (by norm_num [AICache.initConfig, jsNumOr])⟩

/-- Helper: setting an absent key appends the new binding. -/
theorem mapSet_of_absent {T : Type} (m : CacheMap T) (k : List Char) (v : CacheEntry T)
    (h : mapFind m k = none) : mapSet m k v = m ++ [(k, v)] := by
  unfold mapSet
  rw [if_neg]
  intro hs
  have h1 : m.find? (fun kv => kv.1 = k) = none := by
    unfold mapFind at h
    cases hf : m.find? (fun kv => kv.1 = k)
    · rfl
    · rw [hf] at h; simp at h
  rw [h1] at hs
  simp at hs

/-- C6 (code bug): the eviction-at-capacity policy fails when the oldest
entry's key is the empty string.  `set` finds that key, but the source's
truthiness guard `if (oldestKey)` treats the empty string as falsy and
skips the delete, so the insert proceeds without eviction.  Evaluating the
code at the failing input: with `maxEntries = 2`, storing under the prompts
`""` (normalized key is the empty string), `"a"` and `"b"` in that order
leaves all three entries in place — the oldest entry survives and the size
reaches 3, exceeding `maxSize = 2`, contrary to the claim (and to the
source's own `maxSize` documentation and eviction comment). -/
theorem aicache_empty_key_skips_eviction :
    AICache.set
        (AICache.initConfig
          { maxSize := some 2, ttlMs := none, similarityThreshold := none,
            enableFuzzyMatching := none })
        (AICache.set
          (AICache.initConfig
            { maxSize := some 2, ttlMs := none, similarityThreshold := none,
              enableFuzzyMatching := none })
          (AICache.set
            (AICache.initConfig
              { maxSize := some 2, ttlMs := none, similarityThreshold := none,
                enableFuzzyMatching := none })
            ([] : CacheMap ℕ) "".toList 1 0)
          "a".toList 2 1)
        "b".toList 3 2 =
      [(([] : List Char), { response := 1, timestamp := 0, prompt := [] }),
       ("a".toList, { response := 2, timestamp := 1, prompt := "a".toList }),
       ("b".toList, { response := 3, timestamp := 2, prompt := "b".toList })] ∧
    (AICache.initConfig
      { maxSize := some 2, ttlMs := none, similarityThreshold := none,
        enableFuzzyMatching := none }).maxSize = 2 ∧
    2 <
      (AICache.set
        (AICache.initConfig
          { maxSize := some 2, ttlMs := none, similarityThreshold := none,
            enableFuzzyMatching := none })
        (AICache.set
          (AICache.initConfig
            { maxSize := some 2, ttlMs := none, similarityThreshold := none,
              enableFuzzyMatching := none })
          (AICache.set
            (AICache.initConfig
              { maxSize := some 2, ttlMs := none, similarityThreshold := none,
                enableFuzzyMatching := none })
            ([] : CacheMap ℕ) "".toList 1 0)
          "a".toList 2 1)
        "b".toList 3 2).length := by
  have hmax :
      (AICache.initConfig
        { maxSize := some 2, ttlMs := none, similarityThreshold := none,
          enableFuzzyMatching := none }).maxSize = 2 := by
    norm_num [AICache.initConfig, jsNumOr]
  have hm1 :
      AICache.set
          (AICache.initConfig
            { maxSize := some 2, ttlMs := none, similarityThreshold := none,
              enableFuzzyMatching := none })
          ([] : CacheMap ℕ) "".toList 1 0 =
        [(([] : List Char), { response := 1, timestamp := 0, prompt := [] })] := by
    unfold AICache.set
    dsimp only
    rw [show normalizePrompt "".toList = [] from by decide]
    rw [if_neg (by rw [hmax]; norm_num)]
    simp [mapSet, mapFind]
  have hm2 :
      AICache.set
          (AICache.initConfig
            { maxSize := some 2, ttlMs := none, similarityThreshold := none,
              enableFuzzyMatching := none })
          [(([] : List Char), { response := 1, timestamp := 0, prompt := [] })]
          "a".toList 2 1 =
        [(([] : List Char), { response := 1, timestamp := 0, prompt := [] }),
         ("a".toList, { response := 2, timestamp := 1, prompt := "a".toList })] := by
    unfold AICache.set
    dsimp only
    rw [show normalizePrompt "a".toList = "a".toList from by decide]
    rw [if_neg (by rw [hmax]; norm_num)]
    simp [mapSet, mapFind]
  have hm3 :
      AICache.set
          (AICache.initConfig
            { maxSize := some 2, ttlMs := none, similarityThreshold := none,
              enableFuzzyMatching := none })
          [(([] : List Char), { response := 1, timestamp := 0, prompt := [] }),
           ("a".toList, { response := 2, timestamp := 1, prompt := "a".toList })]
          "b".toList 3 2 =
        [(([] : List Char), { response := 1, timestamp := 0, prompt := [] }),
         ("a".toList, { response := 2, timestamp := 1, prompt := "a".toList }),
         ("b".toList, { response := 3, timestamp := 2, prompt := "b".toList })] := by
    unfold AICache.set
    dsimp only
    rw [show normalizePrompt "b".toList = "b".toList from by decide]
    rw [if_pos ⟨by rw [hmax]; norm_num, by decide⟩]
    rw [show (findOldest
        [(([] : List Char),
          ({ response := 1, timestamp := 0, prompt := [] } : CacheEntry ℕ)),
         ("a".toList, { response := 2, timestamp := 1, prompt := "a".toList })]).1 =
        some [] from by decide]
    dsimp only
    rw [if_neg (by simp)]
    simp [mapSet, mapFind]
  refine ⟨?_, hmax, ?_⟩
  · rw [hm1, hm2, hm3]
  · rw [hm1, hm2, hm3]
    simp

/-- Helper: with an echoing batch function, positional resolution gives
every request its own prompt back. -/
theorem mapIdx_positional_echo {E : Type} :
    ∀ (batch : List QueuedRequest) (res : List String),
      res = batch.map QueuedRequest.prompt →
      batch.mapIdx (fun index it => ((it.id, Except.ok (res.get? index)) : ℕ × Settlement E String)) =
        batch.map (fun it => (it.id, Except.ok (some it.prompt))) := by
  intro batch
  induction batch with
  | nil => intro res h; simp
  | cons hd tl ih =>
    intro res h
    subst h
    rw [List.map_cons, List.mapIdx_cons]
    congr 1
    have hfun :
        (fun i (it : QueuedRequest) =>
          ((it.id, Except.ok ((hd.prompt :: tl.map QueuedRequest.prompt).get? (i + 1))) :
            ℕ × Settlement E String)) =
          fun i it => (it.id, Except.ok ((tl.map QueuedRequest.prompt).get? i)) := by
      funext i it
      rw [List.get?_cons_succ]
    rw [hfun]
    exact ih _ rfl

/-- Helper: every dispatch stored by the drain loop carries exactly the
settlements `processOneBatch` computes for its batch. -/
theorem drainAux_dispatch_settlements {E R : Type} (maxB : ℕ)
    (f : List String → Except E (List R)) :
    ∀ (fuel : ℕ) (q : List QueuedRequest)
      (d : List QueuedRequest × List (ℕ × Settlement E R)),
      d ∈ drainAux maxB f fuel q → d.2 = processOneBatch f d.1 := by
  intro fuel
  induction fuel with
  | zero =>
    intro q d hd
    simp [drainAux] at hd
  | succ fuel ih =>
    intro q d hd
    match q with
    | [] => simp [drainAux] at hd
    | h :: t =>
      rw [drainAux] at hd
      rcases List.mem_cons.mp hd with rfl | hmem
      · rfl
      · exact ih _ _ hmem

/-- Helper: with an echoing batch function and positive batch size, draining
any queue dispatches consecutive FIFO groups of at most `maxB` requests
whose concatenation is the queue, and settles every request with its own
prompt. -/
theorem drainAux_echo_spec {E : Type} (maxB : ℕ) (hmaxB : 0 < maxB) :
    ∀ (fuel : ℕ) (q : List QueuedRequest), q.length ≤ fuel →
      ((drainAux maxB (fun ps => (Except.ok ps : Except E (List String))) fuel q).map
          (fun d => d.1)).flatten = q ∧
      (∀ d ∈ drainAux maxB (fun ps => (Except.ok ps : Except E (List String))) fuel q,
        d.1.length ≤ maxB) ∧
      ((drainAux maxB (fun ps => (Except.ok ps : Except E (List String))) fuel q).map
          (fun d => d.2)).flatten =
        q.map (fun it => (it.id, Except.ok (some it.prompt))) := by
  intro fuel
  induction fuel with
  | zero =>
    intro q hq
    have hqnil : q = [] := List.eq_nil_of_length_eq_zero (Nat.le_zero.mp hq)
    subst hqnil
    simp [drainAux]
  | succ fuel ih =>
    intro q hq
    match q with
    | [] => simp [drainAux]
    | h :: t =>
      rw [drainAux]
      have hdroplen : ((h :: t).drop maxB).length ≤ fuel := by
        rw [List.length_drop]
        simp only [List.length_cons] at hq ⊢
        omega
      obtain ⟨ihA, ihB, ihC⟩ := ih _ hdroplen
      refine ⟨?_, ?_, ?_⟩
      · rw [List.map_cons, List.flatten_cons, ihA]
        exact List.take_append_drop maxB (h :: t)
      · intro d hd
        rcases List.mem_cons.mp hd with rfl | hmem
        · simp only [List.length_take]
          exact Nat.min_le_left maxB (h :: t).length
        · exact ihB d hmem
      · rw [List.map_cons, List.flatten_cons, ihC]
        have hpob :
            processOneBatch (fun ps => (Except.ok ps : Except E (List String)))
                ((h :: t).take maxB) =
              ((h :: t).take maxB).map (fun it => (it.id, Except.ok (some it.prompt))) := by
          unfold processOneBatch
          exact mapIdx_positional_echo _ _ rfl
        rw [hpob, ← List.map_append, List.take_append_drop]

/-- C2: for every queue of requests and batch size limit `maxB ≥ 1`, the
drain loop invokes the injected batch function on consecutive FIFO groups
of at most `maxB` requests whose concatenation is the whole queue in
enqueue order, and with an echoing batch function every request's promise
is settled with the result at its own index within its group — its own
prompt. -/
theorem requestBatcher_fifo_positional :
    ∀ (E : Type) (maxB : ℕ) (q : List QueuedRequest), 0 < maxB →
      (((drainDispatches maxB (fun ps => (Except.ok ps : Except E (List String))) q).map
          (fun d => d.1)).flatten = q ∧
       (∀ d ∈ drainDispatches maxB (fun ps => (Except.ok ps : Except E (List String))) q,
          d.1.length ≤ maxB) ∧
       drainSettlements maxB (fun ps => (Except.ok ps : Except E (List String))) q =
         q.map (fun it => (it.id, Except.ok (some it.prompt)))) := by
  intro E maxB q h
  exact drainAux_echo_spec maxB h q.length q (le_refl _)

/-- Witness for `requestBatcher_fifo_positional`: 25 requests with distinct
prompts and `maxBatchSize = 10`, the specification's example. -/
theorem requestBatcher_fifo_positional_witness :
    0 < 10 ∧
    (((drainDispatches 10 (fun ps => (Except.ok ps : Except Unit (List String)))
          ((List.range 25).map
            (fun i => ({ id := i, prompt := String.mk (List.replicate i 'x') } : QueuedRequest)))).map
        (fun d => d.1)).flatten =
      (List.range 25).map
        (fun i => ({ id := i, prompt := String.mk (List.replicate i 'x') } : QueuedRequest)) ∧
     (∀ d ∈ drainDispatches 10 (fun ps => (Except.ok ps : Except Unit (List String)))
          ((List.range 25).map
            (fun i => ({ id := i, prompt := String.mk (List.replicate i 'x') } : QueuedRequest))),
        d.1.length ≤ 10) ∧
     drainSettlements 10 (fun ps => (Except.ok ps : Except Unit (List String)))
          ((List.range 25).map
            (fun i => ({ id := i, prompt := String.mk (List.replicate i 'x') } : QueuedRequest))) =
       ((List.range 25).map
          (fun i => ({ id := i, prompt := String.mk (List.replicate i 'x') } : QueuedRequest))).map
         (fun it => (it.id, Except.ok (some it.prompt)))) :=
  ⟨by decide,
   requestBatcher_fifo_positional Unit 10
     ((List.range 25).map (fun i => ({ id := i, prompt := String.mk (List.replicate i 'x') } : QueuedRequest)))
     (by decide)⟩

/-- C3: for every dispatched batch whose batch function call rejects with an
error, every request of that batch is settled with exactly that error and
none of its requests receives a resolution. -/
theorem requestBatcher_batch_failure_all_reject :
    ∀ (E R : Type) (maxB : ℕ) (f : List String → Except E (List R))
      (q : List QueuedRequest) (e : E)
      (d : List QueuedRequest × List (ℕ × Settlement E R)),
      d ∈ drainDispatches maxB f q →
      f (d.1.map QueuedRequest.prompt) = Except.error e →
      d.2 = d.1.map (fun it => (it.id, Except.error e)) ∧
      ∀ x ∈ d.2, ∀ v : Option R, x.2 ≠ Except.ok v := by
  intro E R maxB f q e d hd hf
  have h2 : d.2 = processOneBatch f d.1 :=
    drainAux_dispatch_settlements maxB f q.length q d hd
  have h3 : processOneBatch f d.1 = d.1.map (fun it => (it.id, Except.error e)) := by
    unfold processOneBatch
    rw [hf]
  constructor
  · rw [h2, h3]
  · intro x hx v
    rw [h2, h3] at hx
    obtain ⟨it, hit, hxeq⟩ := List.mem_map.mp hx
    rw [← hxeq]
    simp

/-- Witness for `requestBatcher_batch_failure_all_reject`: two queued
requests, batch size 1, and a batch function that always rejects with
error `7`; the first dispatch rejects its request with `7`. -/
theorem requestBatcher_batch_failure_all_reject_witness :
    (([({ id := 0, prompt := "u" } : QueuedRequest)],
        [((0 : ℕ), (Except.error 7 : Settlement ℕ ℕ))]) ∈
        drainDispatches 1 (fun _ => (Except.error 7 : Except ℕ (List ℕ)))
          [({ id := 0, prompt := "u" } : QueuedRequest), { id := 1, prompt := "v" }]) ∧
    ((fun _ => (Except.error 7 : Except ℕ (List ℕ)))
        ([({ id := 0, prompt := "u" } : QueuedRequest)].map QueuedRequest.prompt) =
      Except.error 7) ∧
    ([((0 : ℕ), (Except.error 7 : Settlement ℕ ℕ))] =
        [({ id := 0, prompt := "u" } : QueuedRequest)].map
          (fun it => (it.id, Except.error 7)) ∧
      ∀ x ∈ [((0 : ℕ), (Except.error 7 : Settlement ℕ ℕ))],
        ∀ v : Option ℕ, x.2 ≠ Except.ok v) :=
  ⟨List.Mem.head _, rfl,
   requestBatcher_batch_failure_all_reject ℕ ℕ 1
     (fun _ => (Except.error 7 : Except ℕ (List ℕ)))
     [({ id := 0, prompt := "u" } : QueuedRequest), { id := 1, prompt := "v" }] 7
     ([({ id := 0, prompt := "u" } : QueuedRequest)],
       [((0 : ℕ), (Except.error 7 : Settlement ℕ ℕ))])
     (List.Mem.head _) rfl⟩

/-- Helper: the count of a value in `List.range n`. -/
theorem count_range_eq (n x : ℕ) : (List.range n).count x = if x < n then 1 else 0 := by
  induction n with
  | zero => simp
  | succ n ih =>
    rw [List.range_succ, List.count_append, ih]
    by_cases h : x < n
    · simp [h, Nat.lt_succ_of_lt h, List.count_singleton]
      omega
    · by_cases h2 : x = n
      · simp [h, h2]
      · have h3 : ¬ x < n + 1 := by omega
        simp [h, h2, h3]

/-- Helper: the synchronous prefix of `processBatch` only moves requests
between the queue and the in-flight batch (the pooled ids are a
permutation), keeps the id counter, and leaves a non-empty queue only with
a dispatch in flight or a timer armed. -/
theorem pool_processBatchSync (maxB : ℕ) (s : BatcherState) :
    ((processBatchSync maxB s).resolved ++ (processBatchSync maxB s).queue ++
        (processBatchSync maxB s).inFlight.getD []).Perm
      (s.resolved ++ s.queue ++ s.inFlight.getD []) ∧
    (processBatchSync maxB s).nextId = s.nextId ∧
    ((processBatchSync maxB s).queue ≠ [] →
      (processBatchSync maxB s).timerArmed = true ∨
        (processBatchSync maxB s).inFlight.isSome = true) := by
  unfold processBatchSync
  split_ifs with h
  · refine ⟨List.Perm.refl _, rfl, ?_⟩
    intro hq
    rcases h with h1 | h2
    · exact Or.inr h1
    · exact absurd h2 hq
  · push_neg at h
    obtain ⟨h1, h2⟩ := h
    have hnone : s.inFlight = none := by
      cases hf : s.inFlight
      · rfl
      · rw [hf] at h1; simp at h1
    refine ⟨?_, rfl, fun _ => Or.inr rfl⟩
    dsimp only
    rw [hnone]
    simp only [Option.getD_some, Option.getD_none, List.append_nil]
    apply List.perm_iff_count.mpr
    intro x
    simp only [List.count_append]
    have hsplit : (s.queue.take maxB).count x + (s.queue.drop maxB).count x =
        s.queue.count x := by
      rw [← List.count_append, List.take_append_drop]
    omega

/-- Helper: `processBatchSync` preserves the batcher invariant given the
pooled-ids permutation of the input. -/
theorem batcherInv_processBatchSync (maxB : ℕ) (s : BatcherState)
    (hperm : (s.resolved ++ s.queue ++ s.inFlight.getD []).Perm (List.range s.nextId)) :
    BatcherInv (processBatchSync maxB s) := by
  obtain ⟨hp, hn, hprog⟩ := pool_processBatchSync maxB s
  exact ⟨by rw [hn]; exact hp.trans hperm, hprog⟩

/-- Helper: every event of the batcher preserves the invariant. -/
theorem batcherStep_preserves (maxB : ℕ) (s s2 : BatcherState)
    (hstep : BatcherStep maxB s s2) (hinv : BatcherInv s) : BatcherInv s2 := by
  obtain ⟨hperm, hprog⟩ := hinv
  cases hstep with
  | addRequest =>
    have hpool1 : ((s.resolved ++ (s.queue ++ [s.nextId]) ++ s.inFlight.getD []).Perm
        (List.range (s.nextId + 1))) := by
      rw [List.range_succ]
      apply List.perm_iff_count.mpr
      intro x
      have hc := hperm.count_eq x
      simp only [List.count_append] at hc ⊢
      omega
    unfold addRequestStep
    dsimp only
    split_ifs with harm hdisp hdisp
    · exact batcherInv_processBatchSync maxB _ hpool1
    · refine ⟨hpool1, fun _ => Or.inl rfl⟩
    · exact batcherInv_processBatchSync maxB _ hpool1
    · refine ⟨hpool1, ?_⟩
      intro _
      by_cases ht : s.timerArmed = true
      · exact Or.inl ht
      · right
        have hnn : ¬ (s.inFlight.isNone = true) := fun hn => harm ⟨by simpa using ht, hn⟩
        cases hf : s.inFlight
        · rw [hf] at hnn; simp at hnn
        · rfl
  | timerFire h =>
    exact batcherInv_processBatchSync maxB _ hperm
  | complete b h =>
    constructor
    · dsimp only
      have key : ((s.resolved ++ b) ++ s.queue ++ ((none : Option (List ℕ)).getD [])).Perm
          (s.resolved ++ s.queue ++ s.inFlight.getD []) := by
        apply List.perm_iff_count.mpr
        intro x
        simp only [List.count_append, h, Option.getD_some, Option.getD_none, List.count_nil]
        omega
      exact key.trans hperm
    · intro hq
      dsimp only at hq ⊢
      left
      rw [if_neg hq]
  | clearQueue =>
    constructor
    · dsimp only
      have key : ((s.resolved ++ s.queue) ++ ([] : List ℕ) ++ s.inFlight.getD []).Perm
          (s.resolved ++ s.queue ++ s.inFlight.getD []) := by
        apply List.perm_iff_count.mpr
        intro x
        simp only [List.count_append, List.count_nil]
        omega
      exact key.trans hperm
    · intro hq
      exact absurd rfl hq

/-- Helper: the invariant holds in every reachable batcher state. -/
theorem batcherInv_reachable (maxB : ℕ) (s : BatcherState)
    (h : BatcherReachable maxB s) : BatcherInv s := by
  induction h with
  | refl =>
    constructor
    · simp [BatcherState.init]
    · intro hq
      exact absurd rfl hq
  | tail hrt hstep ih => exact batcherStep_preserves maxB _ _ hstep ih

/-- C1: in every state a `RequestBatcher` can reach under any interleaving
of `addRequest` calls, timer firings, dispatch completions (success or
failure) and `clearQueue` calls, no request's promise is ever settled more
than once; whenever the batcher is quiescent (empty queue, no dispatch in
flight) every enqueued request has been settled exactly once; and while
requests are still queued a timer is armed or a dispatch is in flight, so
the pending settlements are still scheduled (never zero settlements). -/
theorem requestBatcher_exactly_once (maxB : ℕ) (s : BatcherState)
    (h : BatcherReachable maxB s) :
    (∀ id, s.resolved.count id ≤ 1) ∧
    (s.queue = [] ∧ s.inFlight = none →
      ∀ id, id < s.nextId ↔ s.resolved.count id = 1) ∧
    (s.queue ≠ [] → s.timerArmed = true ∨ s.inFlight.isSome = true) := by
  obtain ⟨hperm, hprog⟩ := batcherInv_reachable maxB s h
  refine ⟨?_, ?_, hprog⟩
  · intro id
    have hc := hperm.count_eq id
    simp only [List.count_append] at hc
    rw [count_range_eq] at hc
    by_cases hlt : id < s.nextId
    · rw [if_pos hlt] at hc; omega
    · rw [if_neg hlt] at hc; omega
  · rintro ⟨hq, hf⟩ id
    have hc := hperm.count_eq id
    rw [hq, hf] at hc
    simp only [List.count_append, List.count_nil, Option.getD_none] at hc
    rw [count_range_eq] at hc
    constructor
    · intro hlt
      rw [if_pos hlt] at hc
      omega
    · intro h1
      by_contra hnlt
      rw [if_neg hnlt] at hc
      omega

/-- Witness for `requestBatcher_exactly_once` at the initial state (reached
by the empty event sequence) with `maxBatchSize = 5`. -/
theorem requestBatcher_exactly_once_witness :
    BatcherReachable 5 BatcherState.init ∧
    ((∀ id, BatcherState.init.resolved.count id ≤ 1) ∧
     (BatcherState.init.queue = [] ∧ BatcherState.init.inFlight = none →
       ∀ id, id < BatcherState.init.nextId ↔ BatcherState.init.resolved.count id = 1) ∧
     (BatcherState.init.queue ≠ [] →
       BatcherState.init.timerArmed = true ∨ BatcherState.init.inFlight.isSome = true)) :=
  ⟨Relation.ReflTransGen.refl,
   requestBatcher_exactly_once 5 BatcherState.init Relation.ReflTransGen.refl⟩
